import Mathlib

/-!
# pico_hdmi / PIO blink example: `src/main.c`

A shallow embedding of `blink_pin_forever` and `main`.

* Machine integers (`uint`, `uint32_t`) are natural numbers; every C operation that can
  wrap is written with an explicit reduction modulo `2 ^ 32`.  Arguments and the clock
  value are taken to be 32-bit values; a theorem that needs the bound states it.
* The hardware and the SDK are an explicit `Machine` state that is threaded through
  the code.  Every call the program makes on the hardware interface is also appended to
  `Machine.calls`, in program order, the way a recording test double would see it.
* The unsigned division of line 19 is undefined when its divisor is zero; the embedding
  returns `Except.error` with the machine state reached at that point.
-/

namespace PicoBlink

/-! ## 32-bit unsigned arithmetic -/

/-- The modulus of `uint` / `uint32_t` arithmetic, `2 ^ 32`. -/
abbrev U32 : Nat := 4294967296

/-- Multiplication of two `uint` values: the product is reduced modulo `2 ^ 32`. -/
def mul_u32 (a b : Nat) : Nat := (a * b) % U32

/-- Division of two `uint` values: truncating, and undefined (`none`) for a zero
divisor. -/
def div_u32 (a b : Nat) : Option Nat := if b = 0 then none else some (a / b)

/-- Subtraction of two `uint` values: the difference is reduced modulo `2 ^ 32`. -/
def sub_u32 (a b : Nat) : Nat := (a + U32 - b % U32) % U32

/-- The divisor of line 19, `2 * freq`, in `uint` arithmetic. -/
def divisor (freq : Nat) : Nat := mul_u32 2 freq

/-- The right-hand side of line 19, `(clock_get_hz(clk_sys) / (2 * freq)) - 3`, in
`uint` arithmetic; `clock_hz` is the value returned by `clock_get_hz(clk_sys)`. -/
def divider (clock_hz freq : Nat) : Option Nat :=
  (div_u32 clock_hz (divisor freq)).map (fun q => sub_u32 q 3)

/-! ## Hardware state and the call record -/

/-- The PIO instances of the chip (`pio0`, `pio1`, `pio2`). -/
inductive PIO where
  | pio0
  | pio1
  | pio2
  deriving DecidableEq, Repr

/-- One call on the hardware / SDK interface, with its arguments (and its result, when
it has one).  `txf_write` is the store `pio->txf[sm] = value`.  `stdio_init_all` and
`tight_loop_contents` touch none of the state modelled here and are only recorded. -/
inductive Call where
  | stdio_init_all
  | printf (out : String)
  | pio_add_program (pio : PIO) (ret : Option Nat)
  | pio_claim_unused_sm (pio : PIO) (required : Bool) (ret : Option Nat)
  | blink_program_init (pio : PIO) (sm offset pin : Nat)
  | pio_sm_set_enabled (pio : PIO) (sm : Nat) (enabled : Bool)
  | clock_get_hz (ret : Nat)
  | txf_write (pio : PIO) (sm value : Nat)
  | tight_loop_contents
  deriving DecidableEq, Repr

/-- The registers of one PIO block that the program touches, per lane (state machine):
the input register slot `txf[sm]`, the enable flag, the program counter and the pin
mapping. -/
structure PioHw where
  txf : Nat → Nat
  enabled : Nat → Bool
  pc : Nat → Nat
  pin : Nat → Nat

/-- The whole machine: the system clock frequency that `clock_get_hz(clk_sys)` reports,
the PIO blocks, the diagnostic output stream, and the record of interface calls made so
far (oldest first). -/
structure Machine where
  clk_sys_hz : Nat
  hw : PIO → PioHw
  stdout : String
  calls : List Call

/-- Pointwise update of a per-lane register file. -/
def upd {α : Type} (f : Nat → α) (i : Nat) (v : α) : Nat → α :=
  fun j => if j = i then v else f j

/-- Replace the state of one PIO block. -/
def set_hw (m : Machine) (pio : PIO) (h : PioHw) : Machine :=
  { m with hw := fun p => if p = pio then h else m.hw p }

/-- Append one call to the record. -/
def record (m : Machine) (c : Call) : Machine :=
  { m with calls := m.calls ++ [c] }

/-! ## The external collaborators -/

/-- Modelled from the spec: `blink_program_init` comes from the generated header
`blink.pio.h`, which is not among the sources.  Per the spec it initialises the pin
mapping of the lane and its program counter to `offset`. -/
def blink_program_init (m : Machine) (pio : PIO) (sm offset pin : Nat) : Machine :=
  let h := m.hw pio
  record (set_hw m pio { h with pin := upd h.pin sm pin, pc := upd h.pc sm offset })
    (.blink_program_init pio sm offset pin)

/-- Modelled from the spec: `pio_sm_set_enabled` is an SDK routine; per the spec it
sets the enable flag of the lane. -/
def pio_sm_set_enabled (m : Machine) (pio : PIO) (sm : Nat) (enabled : Bool) : Machine :=
  let h := m.hw pio
  record (set_hw m pio { h with enabled := upd h.enabled sm enabled })
    (.pio_sm_set_enabled pio sm enabled)

/-- Modelled from the spec: `clock_get_hz(clk_sys)` is an SDK routine; it reports the
current system clock frequency and changes nothing. -/
def clock_get_hz (m : Machine) : Nat × Machine :=
  (m.clk_sys_hz, record m (.clock_get_hz m.clk_sys_hz))

/-- The store `pio->txf[sm] = value` into the input register slot of lane `sm`. -/
def txf_store (m : Machine) (pio : PIO) (sm value : Nat) : Machine :=
  let h := m.hw pio
  record (set_hw m pio { h with txf := upd h.txf sm value }) (.txf_write pio sm value)

/-- The text `printf` produces for a `%d` conversion given a `uint` argument: the 32
bits are read as a signed integer. -/
def fmt_d (v : Nat) : String :=
  if v % U32 < 2147483648 then Nat.repr (v % U32) else "-" ++ Nat.repr (U32 - v % U32)

/-- The rendering of a `printf` format string that uses only `%d` conversions. -/
def format : List Char → List Nat → List Char
  | [], _ => []
  | '%' :: 'd' :: rest, a :: args => (fmt_d a).data ++ format rest args
  | c :: rest, args => c :: format rest args

/-- The call `printf(fmt, args...)`: the rendered text is appended to the diagnostic
stream. -/
def printf (m : Machine) (fmt : String) (args : List Nat) : Machine :=
  let out := String.mk (format fmt.data args)
  record { m with stdout := m.stdout ++ out } (.printf out)

/-! ## `blink_pin_forever` (lines 11-20) -/

/-- The value of the `BLINK_PIN` constant (line 9). -/
def BLINK_PIN : Nat := 25

/-- `blink_pin_forever(pio, sm, offset, pin, freq)`.  The result is `Except.ok` with the
final machine, or `Except.error` with the machine reached when the division of line 19
has a zero divisor. -/
def blink_pin_forever (m : Machine) (pio : PIO) (sm offset pin freq : Nat) :
    Except Machine Machine :=
  let m1 := blink_program_init m pio sm offset pin
  let m2 := pio_sm_set_enabled m1 pio sm true
  let m3 := printf m2 "Blinking pin %d at %d Hz\n" [pin, freq]
  let (clock_hz, m4) := clock_get_hz m3
  match divider clock_hz freq with
  | none => .error m4
  | some d => .ok (txf_store m4 pio sm d)

/-! ## `main` (lines 22-45) -/

/-- The results of the two SDK allocation routines that `main` calls.  Their algorithms
are not part of this repository, so they are parameters: `none` stands for the fatal
abort the SDK performs when there is no room for the program, or no free lane. -/
structure Sdk where
  pio_add_program : PIO → Option Nat
  pio_claim_unused_sm : PIO → Option Nat

/-- The control points of `main`, named by source line, and its three final states:
`exited` (after `return`), `aborted` (fatal SDK abort) and `undefined` (division by
zero inside `blink_pin_forever`). -/
inductive Loc where
  | l23 | l25 | l28 | l31 | l34 | l37 | l40 | l41 | l44
  | exited | aborted | undefined
  deriving DecidableEq, Repr

/-- A configuration of `main`: control point, machine, and the locals `pio`, `offset`
and `sm`. -/
structure Config where
  loc : Loc
  m : Machine
  pio : PIO
  offset : Nat
  sm : Nat

/-- The configuration in which `main` starts on machine `m`.  The locals have no value
yet; the ones given here are overwritten (lines 28, 31, 34) before they are read. -/
def Config.init (m : Machine) : Config :=
  { loc := .l23, m := m, pio := .pio0, offset := 0, sm := 0 }

/-- One statement of `main`.  `none` means that there is no next statement.  The loop
condition of line 40 is the constant `true`, so control goes from `l40` to `l41` and
back, and no statement leads to the `return` of line 44. -/
def step (sdk : Sdk) (c : Config) : Option Config :=
  match c.loc with
  | .l23 => some { c with loc := .l25, m := record c.m .stdio_init_all }
  | .l25 => some { c with loc := .l28, m := printf c.m "PIO Blink Example - RP2350\n" [] }
  | .l28 => some { c with loc := .l31, pio := .pio0 }
  | .l31 =>
    match sdk.pio_add_program c.pio with
    | some off => some { c with loc := .l34, offset := off,
                                m := record c.m (.pio_add_program c.pio (some off)) }
    | none => some { c with loc := .aborted, m := record c.m (.pio_add_program c.pio none) }
  | .l34 =>
    match sdk.pio_claim_unused_sm c.pio with
    | some lane => some { c with loc := .l37, sm := lane,
                                 m := record c.m (.pio_claim_unused_sm c.pio true (some lane)) }
    | none => some { c with loc := .aborted,
                            m := record c.m (.pio_claim_unused_sm c.pio true none) }
  | .l37 =>
    match blink_pin_forever c.m c.pio c.sm c.offset BLINK_PIN 3 with
    | .ok m1 => some { c with loc := .l40, m := m1 }
    | .error m1 => some { c with loc := .undefined, m := m1 }
  | .l40 => some { c with loc := .l41 }
  | .l41 => some { c with loc := .l40, m := record c.m .tight_loop_contents }
  | .l44 => some { c with loc := .exited }
  | .exited => none
  | .aborted => none
  | .undefined => none

/-- Run `main` for at most `n` statements. -/
def run (sdk : Sdk) : Nat → Config → Config
  | 0, c => c
  | n + 1, c =>
    match step sdk c with
    | some c1 => run sdk n c1
    | none => c

/-- The idle loop of lines 40-42. -/
def Loc.idle (l : Loc) : Bool := l = .l40 || l = .l41

/-- The values stored into the input register slots by the calls of a record, in
order. -/
def txf_writes : List Call → List ( PIO × Nat × Nat)
  | [] => []
  | .txf_write pio sm v :: cs => (pio, sm, v) :: txf_writes cs
  | _ :: cs => txf_writes cs

/-- An empty machine for concrete evaluation: clock `clk`, all registers zero. -/
def Machine.boot (clk : Nat) : Machine :=
  { clk_sys_hz := clk,
    hw := fun _ => { txf := fun _ => 0, enabled := fun _ => false, pc := fun _ => 0,
                     pin := fun _ => 0 },
    stdout := "", calls := [] }

/-- An SDK that loads the program at `off` and hands out lane `lane`. -/
def Sdk.const (off lane : Nat) : Sdk :=
  { pio_add_program := fun _ => some off, pio_claim_unused_sm := fun _ => some lane }

/-- The machine of an outcome of `blink_pin_forever`, whichever way it ended. -/
def outcome : Except Machine Machine → Machine
  | .ok m => m
  | .error m => m

/-- The texts printed by the `printf` calls of a record, in order. -/
def printfs : List Call → List String
  | [] => []
  | .printf out :: cs => out :: printfs cs
  | _ :: cs => printfs cs

/-- The values that one invocation, started on `m` and ended with `r`, has stored into
input register slots: those of the calls recorded after the ones of `m`. -/
def values_written (m : Machine) (r : Except Machine Machine) : List Nat :=
  (txf_writes ((outcome r).calls.drop m.calls.length)).map (fun w => w.2.2)

/-- The machine `blink_pin_forever` has reached just before the store of line 19. -/
def before_store (m : Machine) (pio : PIO) (sm offset pin freq : Nat) : Machine :=
  (clock_get_hz (printf (pio_sm_set_enabled (blink_program_init m pio sm offset pin) pio sm true)
    "Blinking pin %d at %d Hz\n" [pin, freq])).2

/-- The machine `main` has built when it reaches the call of line 37. -/
def before_blink (m : Machine) (offset sm : Nat) : Machine :=
  record (record (printf (record m .stdio_init_all) "PIO Blink Example - RP2350\n" [])
    (.pio_add_program .pio0 (some offset))) (.pio_claim_unused_sm .pio0 true (some sm))

/-! ## Basic facts -/

theorem blink_pin_forever_eq (m : Machine) (pio : PIO) (sm offset pin freq : Nat) :
    blink_pin_forever m pio sm offset pin freq =
      match divider m.clk_sys_hz freq with
      | none => .error (before_store m pio sm offset pin freq)
      | some d => .ok (txf_store (before_store m pio sm offset pin freq) pio sm d) := rfl

theorem format_blink (pin freq : Nat) :
    String.mk (format "Blinking pin %d at %d Hz\n".data [pin, freq]) =
      "Blinking pin " ++ fmt_d pin ++ " at " ++ fmt_d freq ++ " Hz\n" := by
  apply String.ext
  simp [format]

theorem printf_blink (m : Machine) (pin freq : Nat) :
    printf m "Blinking pin %d at %d Hz\n" [pin, freq] =
      record { m with stdout := m.stdout ++
          ("Blinking pin " ++ fmt_d pin ++ " at " ++ fmt_d freq ++ " Hz\n") }
        (.printf ("Blinking pin " ++ fmt_d pin ++ " at " ++ fmt_d freq ++ " Hz\n")) := by
  unfold printf
  rw [format_blink]

theorem before_store_calls (m : Machine) (pio : PIO) (sm offset pin freq : Nat) :
    (before_store m pio sm offset pin freq).calls =
      m.calls ++ [.blink_program_init pio sm offset pin, .pio_sm_set_enabled pio sm true,
        .printf ("Blinking pin " ++ fmt_d pin ++ " at " ++ fmt_d freq ++ " Hz\n"),
        .clock_get_hz m.clk_sys_hz] := by
  rw [before_store, printf_blink]
  simp [clock_get_hz, pio_sm_set_enabled, blink_program_init, record, set_hw]

theorem before_store_stdout (m : Machine) (pio : PIO) (sm offset pin freq : Nat) :
    (before_store m pio sm offset pin freq).stdout =
      m.stdout ++ ("Blinking pin " ++ fmt_d pin ++ " at " ++ fmt_d freq ++ " Hz\n") := by
  rw [before_store, printf_blink]
  simp [clock_get_hz, pio_sm_set_enabled, blink_program_init, record, set_hw]

theorem before_store_txf (m : Machine) (pio : PIO) (sm offset pin freq : Nat) (p : PIO) :
    ((before_store m pio sm offset pin freq).hw p).txf = (m.hw p).txf := by
  by_cases h : p = pio <;>
    simp [before_store, clock_get_hz, printf, pio_sm_set_enabled, blink_program_init, record,
      set_hw, h]

theorem before_store_enabled (m : Machine) (pio : PIO) (sm offset pin freq : Nat) :
    ((before_store m pio sm offset pin freq).hw pio).enabled sm = true := by
  simp [before_store, clock_get_hz, printf, pio_sm_set_enabled, blink_program_init, record,
    set_hw, upd]

theorem txf_writes_append (xs ys : List Call) :
    txf_writes (xs ++ ys) = txf_writes xs ++ txf_writes ys := by
  induction xs with
  | nil => rfl
  | cons c cs ih => cases c <;> simp [txf_writes, ih]

theorem printfs_append (xs ys : List Call) :
    printfs (xs ++ ys) = printfs xs ++ printfs ys := by
  induction xs with
  | nil => rfl
  | cons c cs ih => cases c <;> simp [printfs, ih]

theorem digitChar_ne_newline (d : Nat) (h : d < 10) : Nat.digitChar d ≠ '\n' := by
  interval_cases d <;> decide

theorem toDigitsCore_no_newline (fuel : Nat) :
    ∀ (n : Nat) (ds : List Char), (∀ c ∈ ds, c ≠ '\n') →
      ∀ c ∈ Nat.toDigitsCore 10 fuel n ds, c ≠ '\n' := by
  induction fuel with
  | zero => intro n ds hds; simpa [Nat.toDigitsCore] using hds
  | succ fuel ih =>
    intro n ds hds
    have hcons : ∀ c ∈ Nat.digitChar (n % 10) :: ds, c ≠ '\n' := by
      intro c hc
      rcases List.mem_cons.1 hc with rfl | hc
      · exact digitChar_ne_newline _ (Nat.mod_lt _ (by norm_num))
      · exact hds c hc
    rw [Nat.toDigitsCore]
    split
    · exact hcons
    · exact ih _ _ hcons

/-- The decimal rendering of a number contains no newline. -/
theorem repr_no_newline (n : Nat) : (Nat.repr n).data.count '\n' = 0 := by
  rw [List.count_eq_zero]
  intro hmem
  exact toDigitsCore_no_newline _ _ [] (by simp) _ hmem rfl

theorem fmt_d_small (v : Nat) (h : v < 2147483648) : fmt_d v = Nat.repr v := by
  have h1 : v % U32 = v := Nat.mod_eq_of_lt (by simp only [U32]; omega)
  simp [fmt_d, h1, h]

theorem divisor_small (freq : Nat) (h : freq < 2147483648) : divisor freq = 2 * freq := by
  simp only [divisor, mul_u32, U32]
  omega

theorem divider_some (clock_hz freq : Nat) (h : divisor freq ≠ 0) :
    divider clock_hz freq = some ((clock_hz / divisor freq + U32 - 3) % U32) := by
  have h3 : 3 % U32 = 3 := by norm_num [U32]
  simp [divider, div_u32, sub_u32, h, h3]

theorem divider_none (clock_hz freq : Nat) (h : divisor freq = 0) :
    divider clock_hz freq = none := by
  simp [divider, div_u32, h]

/-- What a run of `blink_pin_forever` that reaches the store has done. -/
theorem blink_pin_forever_ok (m : Machine) (pio : PIO) (sm offset pin freq d : Nat)
    (h : divider m.clk_sys_hz freq = some d) :
    ∃ m1, blink_pin_forever m pio sm offset pin freq = .ok m1 ∧
      m1.calls = m.calls ++ [.blink_program_init pio sm offset pin,
        .pio_sm_set_enabled pio sm true,
        .printf ("Blinking pin " ++ fmt_d pin ++ " at " ++ fmt_d freq ++ " Hz\n"),
        .clock_get_hz m.clk_sys_hz, .txf_write pio sm d] ∧
      (m1.hw pio).txf sm = d ∧
      (∀ lane, lane ≠ sm → (m1.hw pio).txf lane = (m.hw pio).txf lane) ∧
      (∀ p, p ≠ pio → (m1.hw p).txf = (m.hw p).txf) ∧
      m1.clk_sys_hz = m.clk_sys_hz := by
  refine ⟨txf_store (before_store m pio sm offset pin freq) pio sm d, ?_, ?_, ?_, ?_, ?_, ?_⟩
  · rw [blink_pin_forever_eq, h]
  · simp [txf_store, record, set_hw, before_store_calls]
  · simp [txf_store, record, set_hw, upd]
  · intro lane hl
    simp [txf_store, record, set_hw, upd, hl, before_store_txf]
  · intro p hp
    simp [txf_store, record, set_hw, hp, before_store_txf]
  · rfl

/-- In the supported range no operation of line 19 wraps. -/
theorem divider_in_range (clock_hz freq : Nat) (hpos : 0 < freq) (h32 : clock_hz < U32)
    (h : freq ≤ clock_hz / 6) :
    divisor freq = 2 * freq ∧ 2 * freq < U32 ∧ 3 ≤ clock_hz / (2 * freq) ∧
      divider clock_hz freq = some (clock_hz / (2 * freq) - 3) := by
  have h6 : freq * 6 ≤ clock_hz := (Nat.le_div_iff_mul_le (by norm_num)).1 h
  have hsmall : freq < 2147483648 := by simp only [U32] at h32; omega
  have hdiv : divisor freq = 2 * freq := divisor_small freq hsmall
  have hq : 3 ≤ clock_hz / (2 * freq) := (Nat.le_div_iff_mul_le (by omega)).2 (by omega)
  have hqlt : clock_hz / (2 * freq) < U32 := lt_of_le_of_lt (Nat.div_le_self _ _) h32
  refine ⟨hdiv, by simp only [U32] at h32 ⊢; omega, hq, ?_⟩
  rw [divider_some _ _ (by rw [hdiv]; omega), hdiv]
  refine congrArg some ?_
  simp only [U32] at hqlt ⊢
  omega

theorem cast_div (a b : Nat) : (a : Int) / (2 * (b : Int)) = ((a / (2 * b) : Nat) : Int) := by
  simp [Int.natCast_div]

/-- The calls of one invocation of `blink_pin_forever`, whichever way it ends. -/
theorem blink_pin_forever_calls (m : Machine) (pio : PIO) (sm offset pin freq : Nat) :
    (outcome (blink_pin_forever m pio sm offset pin freq)).calls =
      m.calls ++ ([.blink_program_init pio sm offset pin, .pio_sm_set_enabled pio sm true,
        .printf ("Blinking pin " ++ fmt_d pin ++ " at " ++ fmt_d freq ++ " Hz\n"),
        .clock_get_hz m.clk_sys_hz] ++
        (divider m.clk_sys_hz freq).toList.map (Call.txf_write pio sm)) := by
  rw [blink_pin_forever_eq]
  cases divider m.clk_sys_hz freq with
  | none => simp [outcome, before_store_calls]
  | some d => simp [outcome, txf_store, record, set_hw, before_store_calls]

theorem blink_pin_forever_stdout (m : Machine) (pio : PIO) (sm offset pin freq : Nat) :
    (outcome (blink_pin_forever m pio sm offset pin freq)).stdout =
      m.stdout ++ ("Blinking pin " ++ fmt_d pin ++ " at " ++ fmt_d freq ++ " Hz\n") := by
  rw [blink_pin_forever_eq]
  cases divider m.clk_sys_hz freq with
  | none => simp [outcome, before_store_stdout]
  | some d => simp [outcome, txf_store, record, set_hw, before_store_stdout]

theorem blink_pin_forever_enabled (m : Machine) (pio : PIO) (sm offset pin freq : Nat) :
    ((outcome (blink_pin_forever m pio sm offset pin freq)).hw pio).enabled sm = true := by
  rw [blink_pin_forever_eq]
  cases divider m.clk_sys_hz freq with
  | none => simp [outcome, before_store_enabled]
  | some d => simp [outcome, txf_store, record, set_hw, before_store_enabled]

theorem values_written_eq (m : Machine) (pio : PIO) (sm offset pin freq : Nat) :
    values_written m (blink_pin_forever m pio sm offset pin freq) =
      (divider m.clk_sys_hz freq).toList := by
  rw [values_written, blink_pin_forever_calls, List.drop_left, txf_writes_append]
  cases divider m.clk_sys_hz freq <;> simp [txf_writes]

theorem printf_banner (m : Machine) :
    printf m "PIO Blink Example - RP2350\n" [] =
      record { m with stdout := m.stdout ++ "PIO Blink Example - RP2350\n" }
        (.printf "PIO Blink Example - RP2350\n") := by
  have hfmt : String.mk (format "PIO Blink Example - RP2350\n".data []) =
      "PIO Blink Example - RP2350\n" := by decide
  unfold printf
  rw [hfmt]

theorem run_zero (sdk : Sdk) (c : Config) : run sdk 0 c = c := rfl

theorem run_succ (sdk : Sdk) (n : Nat) (c c1 : Config) (h : step sdk c = some c1) :
    run sdk (n + 1) c = run sdk n c1 := by
  rw [run, h]

theorem run_halted (sdk : Sdk) (n : Nat) (c : Config) (h : step sdk c = none) :
    run sdk n c = c := by
  cases n with
  | zero => rfl
  | succ n => rw [run, h]

theorem run_add (sdk : Sdk) (a b : Nat) (c : Config) :
    run sdk (a + b) c = run sdk b (run sdk a c) := by
  induction a generalizing c with
  | zero => rw [Nat.zero_add, run_zero]
  | succ a ih =>
    rw [Nat.add_right_comm]
    cases h : step sdk c with
    | none => rw [run_halted _ _ _ h, run_halted _ _ _ h, run_halted _ _ _ h]
    | some c1 => rw [run_succ _ _ _ _ h, run_succ _ _ _ _ h, ih]

/-- A property that every statement of `main` preserves holds along every run. -/
theorem run_invariant (sdk : Sdk) (P : Config → Prop)
    (hstep : ∀ c c1, P c → step sdk c = some c1 → P c1) :
    ∀ n c, P c → P (run sdk n c) := by
  intro n
  induction n with
  | zero => intro c hc; exact hc
  | succ n ih =>
    intro c hc
    cases h : step sdk c with
    | none => rw [run_halted _ _ _ h]; exact hc
    | some c1 => rw [run_succ _ _ _ _ h]; exact ih c1 (hstep c c1 hc h)

theorem run_to_blink (sdk : Sdk) (m : Machine) (offset sm : Nat)
    (hadd : sdk.pio_add_program .pio0 = some offset)
    (hclaim : sdk.pio_claim_unused_sm .pio0 = some sm) :
    run sdk 5 (Config.init m) =
      { loc := .l37, m := before_blink m offset sm, pio := .pio0, offset := offset, sm := sm } := by
  simp [run, step, Config.init, hadd, hclaim, before_blink]

theorem before_blink_calls (m : Machine) (offset sm : Nat) :
    (before_blink m offset sm).calls = m.calls ++ [.stdio_init_all,
      .printf "PIO Blink Example - RP2350\n", .pio_add_program .pio0 (some offset),
      .pio_claim_unused_sm .pio0 true (some sm)] := by
  rw [before_blink, printf_banner]
  simp [record]

theorem divider_three (clock_hz : Nat) :
    divider clock_hz 3 = some ((clock_hz / 6 + U32 - 3) % U32) := by
  have h6 : divisor 3 = 6 := by decide
  rw [divider_some _ _ (by rw [h6]; decide), h6]

/-- The statements of the idle loop change nothing but the call record, to which they
only add `tight_loop_contents` calls, and they stay in the loop. -/
theorem idle_step (sdk : Sdk) (c : Config) (h : c.loc.idle = true) :
    ∃ c1, step sdk c = some c1 ∧ c1.loc.idle = true ∧ c1.m.hw = c.m.hw ∧
      c1.m.stdout = c.m.stdout ∧
      (c1.m.calls = c.m.calls ∨ c1.m.calls = c.m.calls ++ [.tight_loop_contents]) := by
  rcases c with ⟨loc, m, pio, offset, sm⟩
  cases loc <;> simp [Loc.idle] at h
  · exact ⟨_, rfl, rfl, rfl, rfl, Or.inl rfl⟩
  · exact ⟨_, rfl, rfl, rfl, rfl, Or.inr rfl⟩

theorem txf_writes_idle (k : Nat) :
    txf_writes (List.replicate k Call.tight_loop_contents) = [] := by
  induction k with
  | zero => rfl
  | succ k ih => simp [List.replicate_succ, txf_writes, ih]

/-- No statement of `main` other than the `return` itself leads to the `return`. -/
theorem step_not_return (sdk : Sdk) (c c1 : Config) (h1 : c.loc ≠ .l44)
    (h2 : c.loc ≠ .exited) (hs : step sdk c = some c1) :
    c1.loc ≠ .l44 ∧ c1.loc ≠ .exited := by
  rcases c with ⟨loc, m, pio, offset, sm⟩
  cases loc <;> simp only [step] at hs <;> (try split at hs) <;> (try cases hs) <;> simp_all

/-! ## The claims -/

/-- C1. For positive `clock_hz` and `freq_hz` that fit 32 unsigned bits, with
`freq_hz ≤ clock_hz / 6`: neither `2 * freq_hz` nor the subtraction of 3 wraps,
`blink_pin_forever` reaches its store, and the value it writes to the input register of
the lane is the non-negative integer `floor(clock_hz / (2 * freq_hz)) - 3`.  With a
150000000 Hz clock and `freq_hz = 3` that value is 24999997. -/
theorem C1_divider_formula (m : Machine) (pio : PIO) (sm offset pin freq_hz : Nat)
    (_hclock : 0 < m.clk_sys_hz) (hfreq : 0 < freq_hz)
    (hclock32 : m.clk_sys_hz < U32) (_hfreq32 : freq_hz < U32)
    (h : freq_hz ≤ m.clk_sys_hz / 6) :
    divisor freq_hz = 2 * freq_hz ∧ 2 * freq_hz < U32 ∧
    3 ≤ m.clk_sys_hz / (2 * freq_hz) ∧
    divider m.clk_sys_hz freq_hz = some (m.clk_sys_hz / (2 * freq_hz) - 3) ∧
    (0 : Int) ≤ (m.clk_sys_hz : Int) / (2 * (freq_hz : Int)) - 3 ∧
    ∃ m1, blink_pin_forever m pio sm offset pin freq_hz = .ok m1 ∧
      txf_writes m1.calls = txf_writes m.calls ++ [(pio, sm, (m1.hw pio).txf sm)] ∧
      (((m1.hw pio).txf sm : Nat) : Int) = (m.clk_sys_hz : Int) / (2 * (freq_hz : Int)) - 3 ∧
      (m.clk_sys_hz = 150000000 → freq_hz = 3 → (m1.hw pio).txf sm = 24999997) := by
  obtain ⟨hdiv, hlt, hq, hd⟩ := divider_in_range m.clk_sys_hz freq_hz hfreq hclock32 h
  have hcast := cast_div m.clk_sys_hz freq_hz
  obtain ⟨m1, hrun, hcalls, htxf, -, -, -⟩ := blink_pin_forever_ok m pio sm offset pin freq_hz _ hd
  refine ⟨hdiv, hlt, hq, hd, by rw [hcast]; omega,
    m1, hrun, ?_, ?_, ?_⟩
  · rw [hcalls, txf_writes_append, htxf]
    rfl
  · rw [htxf, hcast]
    omega
  · intro hc hf
    rw [htxf, hc, hf]

/-- C1, at the 150 MHz clock with a 3 Hz blink. -/
theorem C1_divider_formula_witness :
    ∃ m1, blink_pin_forever (Machine.boot 150000000) .pio0 0 0 25 3 = .ok m1 ∧
      (m1.hw .pio0).txf 0 = 24999997 := by
  obtain ⟨-, -, -, -, -, m1, hrun, -, -, h⟩ :=
    C1_divider_formula (Machine.boot 150000000) .pio0 0 0 25 3
      (by decide) (by decide) (by decide) (by decide) (by decide)
  exact ⟨m1, hrun, h rfl rfl⟩

/-- C5. For `0 < freq < 2 ^ 31` with `clock_hz / (2 * freq) < 3` the raw divider
`clock_hz / (2 * freq) - 3` is negative, and `blink_pin_forever` does not reject it: it
reaches its store and writes the raw divider reduced to 32 unsigned bits, that is
`2 ^ 32 + (clock_hz / (2 * freq) - 3)`, a value of at least `2 ^ 32 - 3`.  With
`clock_hz = 12` and `freq = 3` the raw divider is `-1` and the value written is
4294967295. -/
theorem C5_negative_divider_wraps (m : Machine) (pio : PIO) (sm offset pin freq : Nat)
    (hpos : 0 < freq) (hlt : freq < 2147483648) (h : m.clk_sys_hz / (2 * freq) < 3) :
    (m.clk_sys_hz : Int) / (2 * (freq : Int)) - 3 < 0 ∧
    ∃ m1, blink_pin_forever m pio sm offset pin freq = .ok m1 ∧
      txf_writes m1.calls = txf_writes m.calls ++ [(pio, sm, (m1.hw pio).txf sm)] ∧
      (((m1.hw pio).txf sm : Nat) : Int) =
        4294967296 + ((m.clk_sys_hz : Int) / (2 * (freq : Int)) - 3) ∧
      4294967296 - 3 ≤ (m1.hw pio).txf sm ∧ (m1.hw pio).txf sm < 4294967296 ∧
      (m.clk_sys_hz = 12 → freq = 3 →
        (m.clk_sys_hz : Int) / (2 * (freq : Int)) - 3 = -1 ∧
        (m1.hw pio).txf sm = 4294967295) := by
  have hdiv : divisor freq = 2 * freq := divisor_small freq hlt
  have hcast := cast_div m.clk_sys_hz freq
  have hd := divider_some m.clk_sys_hz freq (by rw [hdiv]; omega)
  rw [hdiv] at hd
  obtain ⟨m1, hrun, hcalls, htxf, -, -, -⟩ := blink_pin_forever_ok m pio sm offset pin freq _ hd
  have hval : (m1.hw pio).txf sm = 4294967296 + m.clk_sys_hz / (2 * freq) - 3 := by
    rw [htxf]
    simp only [U32]
    omega
  have hwr : txf_writes m1.calls = txf_writes m.calls ++ [(pio, sm, (m1.hw pio).txf sm)] := by
    rw [hcalls, txf_writes_append, htxf]
    rfl
  have hinst : m.clk_sys_hz = 12 → freq = 3 →
      (m.clk_sys_hz : Int) / (2 * (freq : Int)) - 3 = -1 ∧
        (m1.hw pio).txf sm = 4294967295 := by
    intro hc hf
    rw [hval, hc, hf]
    constructor <;> rfl
  rw [hcast] at hinst ⊢
  refine ⟨?_, m1, hrun, hwr, ?_, ?_, ?_, hinst⟩
  · generalize m.clk_sys_hz / (2 * freq) = q at h ⊢
    omega
  · rw [hval]
    generalize m.clk_sys_hz / (2 * freq) = q at h ⊢
    omega
  · rw [hval]
    generalize m.clk_sys_hz / (2 * freq) = q
    omega
  · rw [hval]
    generalize m.clk_sys_hz / (2 * freq) = q at h ⊢
    omega

/-- C5, at `clock_hz = 12` and `freq = 3`. -/
theorem C5_negative_divider_wraps_witness :
    ∃ m1, blink_pin_forever (Machine.boot 12) .pio0 0 0 25 3 = .ok m1 ∧
      (m1.hw .pio0).txf 0 = 4294967295 := by
  obtain ⟨-, m1, hrun, -, -, -, -, h⟩ :=
    C5_negative_divider_wraps (Machine.boot 12) .pio0 0 0 25 3
      (by decide) (by decide) (by decide)
  exact ⟨m1, hrun, (h rfl rfl).2⟩

/-- C9. For a `uint` value `freq`, the divisor `2 * freq` of line 19, computed in 32-bit
unsigned arithmetic, is zero exactly when `freq` is 0 or `2 ^ 31`, and
`blink_pin_forever` ends in the undefined division exactly then.  So the division is
defined for every `0 < freq < 2 ^ 31`, while `freq = 2 ^ 31` is positive, fits a `uint`,
and makes the divisor wrap to 0. -/
theorem C9_divisor_zero (freq : Nat) (h32 : freq < U32) :
    (divisor freq = 0 ↔ freq = 0 ∨ freq = 2147483648) ∧
    (∀ (m : Machine) (pio : PIO) (sm offset pin : Nat),
      (∃ m1, blink_pin_forever m pio sm offset pin freq = .error m1) ↔
        (freq = 0 ∨ freq = 2147483648)) ∧
    (0 < freq → freq < 2147483648 →
      ∀ clock_hz, div_u32 clock_hz (divisor freq) = some (clock_hz / (2 * freq))) ∧
    ((0 : Nat) < 2147483648 ∧ 2147483648 < U32 ∧ divisor 2147483648 = 0 ∧
      ∀ clock_hz, div_u32 clock_hz (divisor 2147483648) = none) := by
  have hiff : divisor freq = 0 ↔ freq = 0 ∨ freq = 2147483648 := by
    simp only [divisor, mul_u32, U32] at h32 ⊢
    omega
  refine ⟨hiff, ?_, ?_, ?_⟩
  · intro m pio sm offset pin
    rw [← hiff, blink_pin_forever_eq]
    by_cases hz : divisor freq = 0
    · simp [divider_none _ _ hz, hz]
    · simp [divider_some _ _ hz, hz]
  · intro hpos hlt clock_hz
    have hdiv := divisor_small freq hlt
    have hne : 2 * freq ≠ 0 := by omega
    simp [div_u32, hdiv, hne]
  · refine ⟨by norm_num, by norm_num [U32], by decide, ?_⟩
    intro clock_hz
    have hz : divisor 2147483648 = 0 := by decide
    simp [div_u32, hz]

/-- C9, at `freq = 2 ^ 31`. -/
theorem C9_divisor_zero_witness :
    (2147483648 : Nat) < U32 ∧ divisor 2147483648 = 0 ∧
      ∃ m1, blink_pin_forever (Machine.boot 150000000) .pio0 0 0 25 2147483648 = .error m1 :=
  ⟨by decide, by decide,
    ((C9_divisor_zero 2147483648 (by decide)).2.1 (Machine.boot 150000000) .pio0 0 0 25).2
      (Or.inr rfl)⟩

/-- C10. For `freq > 0` with `freq ≤ clock_hz / 6` (and `clock_hz` a 32-bit value) the
divider `d` that `blink_pin_forever` writes satisfies
`2 * freq * (d + 3) ≤ clock_hz < 2 * freq * (d + 3) + 2 * freq`: the realised half-period
of `d + 3` cycles is never longer than the ideal `clock_hz / (2 * freq)`, and is short of
it by less than one cycle. -/
theorem C10_truncation_bounds (m : Machine) (pio : PIO) (sm offset pin freq : Nat)
    (hpos : 0 < freq) (hclock32 : m.clk_sys_hz < U32) (h : freq ≤ m.clk_sys_hz / 6) :
    ∃ m1 d, blink_pin_forever m pio sm offset pin freq = .ok m1 ∧
      (m1.hw pio).txf sm = d ∧
      txf_writes m1.calls = txf_writes m.calls ++ [(pio, sm, d)] ∧
      2 * freq * (d + 3) ≤ m.clk_sys_hz ∧
      m.clk_sys_hz < 2 * freq * (d + 3) + 2 * freq := by
  obtain ⟨-, -, hq, hd⟩ := divider_in_range m.clk_sys_hz freq hpos hclock32 h
  obtain ⟨m1, hrun, hcalls, htxf, -, -, -⟩ := blink_pin_forever_ok m pio sm offset pin freq _ hd
  have hd3 : m.clk_sys_hz / (2 * freq) - 3 + 3 = m.clk_sys_hz / (2 * freq) := by omega
  refine ⟨m1, _, hrun, htxf, ?_, ?_, ?_⟩
  · rw [hcalls, txf_writes_append]
    rfl
  · rw [hd3]
    exact Nat.mul_div_le _ _
  · rw [hd3]
    have hmod := Nat.div_add_mod m.clk_sys_hz (2 * freq)
    have hlt := Nat.mod_lt m.clk_sys_hz (show 0 < 2 * freq by omega)
    omega

/-- C10, at the 150 MHz clock with a 3 Hz blink. -/
theorem C10_truncation_bounds_witness :
    ∃ m1 d, blink_pin_forever (Machine.boot 150000000) .pio0 0 0 25 3 = .ok m1 ∧
      (m1.hw .pio0).txf 0 = d ∧ 2 * 3 * (d + 3) ≤ 150000000 ∧
      150000000 < 2 * 3 * (d + 3) + 2 * 3 := by
  obtain ⟨m1, d, hrun, htxf, -, h1, h2⟩ :=
    C10_truncation_bounds (Machine.boot 150000000) .pio0 0 0 25 3
      (by decide) (by decide) (by decide)
  exact ⟨m1, d, hrun, htxf, h1, h2⟩

/-- C2. Whenever `2 * freq` is not congruent to 0 modulo `2 ^ 32`, one invocation of
`blink_pin_forever` reaches its store and makes exactly one write to an input register:
the write goes to the slot of lane `sm` of `pio`; its value is the expression of line
19 evaluated modulo `2 ^ 32`, that is `clock_hz` divided by the 32-bit product
`2 * freq`, minus 3, reduced modulo `2 ^ 32` (for `freq < 2 ^ 31` the product does not
wrap); the slot of every other lane, and of every other PIO block, keeps its value. -/
theorem C2_single_write (m : Machine) (pio : PIO) (sm offset pin freq : Nat)
    (h : (2 * freq) % U32 ≠ 0) :
    ∃ m1, blink_pin_forever m pio sm offset pin freq = .ok m1 ∧
      txf_writes m1.calls = txf_writes m.calls ++
        [(pio, sm, (m.clk_sys_hz / ((2 * freq) % U32) + U32 - 3) % U32)] ∧
      (m1.hw pio).txf sm = (m.clk_sys_hz / ((2 * freq) % U32) + U32 - 3) % U32 ∧
      (∀ lane, lane ≠ sm → (m1.hw pio).txf lane = (m.hw pio).txf lane) ∧
      (∀ p lane, p ≠ pio → (m1.hw p).txf lane = (m.hw p).txf lane) ∧
      (freq < 2147483648 → (((m1.hw pio).txf sm : Nat) : Int) =
        ((m.clk_sys_hz : Int) / (2 * (freq : Int)) - 3) % 4294967296) := by
  have hd := divider_some m.clk_sys_hz freq h
  obtain ⟨m1, hrun, hcalls, htxf, hlanes, hpios, -⟩ :=
    blink_pin_forever_ok m pio sm offset pin freq _ hd
  refine ⟨m1, hrun, ?_, htxf, hlanes, ?_, ?_⟩
  · rw [hcalls, txf_writes_append]
    rfl
  · intro p lane hp
    rw [hpios p hp]
  · intro hlt
    have hdiv : divisor freq = 2 * freq := divisor_small freq hlt
    rw [htxf, cast_div, hdiv]
    generalize m.clk_sys_hz / (2 * freq) = q
    simp only [U32]
    omega

/-- C2, at the 150 MHz clock with a 3 Hz blink on lane 1. -/
theorem C2_single_write_witness :
    ∃ m1, blink_pin_forever (Machine.boot 150000000) .pio0 1 0 25 3 = .ok m1 ∧
      txf_writes m1.calls = [(.pio0, 1, 24999997)] ∧ (m1.hw .pio0).txf 0 = 0 := by
  obtain ⟨m1, hrun, hw, -, hlanes, -, -⟩ :=
    C2_single_write (Machine.boot 150000000) .pio0 1 0 25 3 (by decide)
  exact ⟨m1, hrun, hw, hlanes 0 (by decide)⟩

/-- C3. The calls made by one invocation of `blink_pin_forever(pio, sm, offset, pin,
freq)` are, in order: `blink_program_init(pio, sm, offset, pin)` first,
`pio_sm_set_enabled(pio, sm, true)` second, then `printf`, `clock_get_hz` and, unless
the division is undefined, the write to the input register.  Hence every register
write of the invocation has both the initialisation and the enable call before it, and
the lane is enabled when the invocation ends. -/
theorem C3_enable_before_write (m : Machine) (pio : PIO) (sm offset pin freq : Nat) :
    ∃ rest,
      (outcome (blink_pin_forever m pio sm offset pin freq)).calls =
        m.calls ++ (.blink_program_init pio sm offset pin ::
          .pio_sm_set_enabled pio sm true :: rest) ∧
      rest = [.printf ("Blinking pin " ++ fmt_d pin ++ " at " ++ fmt_d freq ++ " Hz\n"),
          .clock_get_hz m.clk_sys_hz] ++
        (divider m.clk_sys_hz freq).toList.map (Call.txf_write pio sm) ∧
      (divisor freq ≠ 0 → ∃ v, txf_writes rest = [(pio, sm, v)]) ∧
      (∀ pre post p lane v,
        (Call.blink_program_init pio sm offset pin :: .pio_sm_set_enabled pio sm true :: rest) =
            pre ++ Call.txf_write p lane v :: post →
          ∃ mid, pre = Call.blink_program_init pio sm offset pin ::
            .pio_sm_set_enabled pio sm true :: mid) ∧
      ((outcome (blink_pin_forever m pio sm offset pin freq)).hw pio).enabled sm = true := by
  refine ⟨_, ?_, rfl, ?_, ?_, blink_pin_forever_enabled m pio sm offset pin freq⟩
  · rw [blink_pin_forever_calls]
    rfl
  · intro hne
    rw [divider_some _ _ hne]
    exact ⟨_, rfl⟩
  · intro pre post p lane v hsplit
    rcases pre with _ | ⟨x, _ | ⟨y, mid⟩⟩
    · simp at hsplit
    · simp at hsplit
    · simp only [List.cons_append, List.cons.injEq] at hsplit
      obtain ⟨hx, hy, -⟩ := hsplit
      exact ⟨mid, by rw [← hx, ← hy]⟩

/-- C3, at the 150 MHz clock with a 3 Hz blink: the write is the fifth call. -/
theorem C3_enable_before_write_witness :
    ∃ rest, (outcome (blink_pin_forever (Machine.boot 150000000) .pio0 0 0 25 3)).calls =
        [] ++ (.blink_program_init .pio0 0 0 25 :: .pio_sm_set_enabled .pio0 0 true :: rest) ∧
      ∃ v, txf_writes rest = [(.pio0, 0, v)] := by
  obtain ⟨rest, hcalls, -, hwrite, -, -⟩ :=
    C3_enable_before_write (Machine.boot 150000000) .pio0 0 0 25 3
  exact ⟨rest, hcalls, hwrite (by decide)⟩

/-- C4. For `pin` and `freq` below `2 ^ 31`, `blink_pin_forever` makes exactly one
`printf` call and appends exactly its text to the diagnostic stream: `Blinking pin `,
the decimal rendering of `pin`, ` at `, the decimal rendering of `freq`, ` Hz` and a
newline.  That text is one line: it holds a single newline, its last character.  For
`pin = 25` and `freq = 3` the text is `Blinking pin 25 at 3 Hz` and a newline. -/
theorem C4_status_line (m : Machine) (pio : PIO) (sm offset pin freq : Nat)
    (hpin : pin < 2147483648) (hfreq : freq < 2147483648) :
    (outcome (blink_pin_forever m pio sm offset pin freq)).stdout =
      m.stdout ++ ("Blinking pin " ++ Nat.repr pin ++ " at " ++ Nat.repr freq ++ " Hz\n") ∧
    printfs (outcome (blink_pin_forever m pio sm offset pin freq)).calls =
      printfs m.calls ++
        ["Blinking pin " ++ Nat.repr pin ++ " at " ++ Nat.repr freq ++ " Hz\n"] ∧
    ("Blinking pin " ++ Nat.repr pin ++ " at " ++ Nat.repr freq ++ " Hz\n").data.count '\n'
      = 1 ∧
    ("Blinking pin " ++ Nat.repr pin ++ " at " ++ Nat.repr freq ++ " Hz\n").data.getLast?
      = some '\n' ∧
    (pin = 25 → freq = 3 →
      (outcome (blink_pin_forever m pio sm offset pin freq)).stdout =
        m.stdout ++ "Blinking pin 25 at 3 Hz\n" ∧
      printfs (outcome (blink_pin_forever m pio sm offset pin freq)).calls =
        printfs m.calls ++ ["Blinking pin 25 at 3 Hz\n"]) := by
  have hout := blink_pin_forever_stdout m pio sm offset pin freq
  have hpr : printfs (outcome (blink_pin_forever m pio sm offset pin freq)).calls =
      printfs m.calls ++
        ["Blinking pin " ++ fmt_d pin ++ " at " ++ fmt_d freq ++ " Hz\n"] := by
    rw [blink_pin_forever_calls, printfs_append, printfs_append]
    cases divider m.clk_sys_hz freq <;> simp [printfs]
  rw [fmt_d_small pin hpin, fmt_d_small freq hfreq] at hout hpr
  refine ⟨hout, hpr, ?_, ?_, ?_⟩
  · simp only [String.data_append, List.count_append, repr_no_newline]
    decide
  · rw [String.data_append, List.getLast?_append_of_ne_nil _ (by decide)]
    rfl
  · intro hp hf
    rw [hout, hpr, hp, hf]
    constructor <;> rfl

/-- C4, at `pin = 25` and `freq = 3`. -/
theorem C4_status_line_witness :
    (outcome (blink_pin_forever (Machine.boot 150000000) .pio0 0 0 25 3)).stdout =
      "" ++ "Blinking pin 25 at 3 Hz\n" :=
  ((C4_status_line (Machine.boot 150000000) .pio0 0 0 25 3 (by decide) (by decide)).2.2.2.2
    rfl rfl).1

/-- C7. The values one invocation of `blink_pin_forever` stores into the input register
are given by `divider`, a function of the system clock value and `freq` alone.  So two
invocations with the same clock value and the same `freq` write the same value, whatever
their `pio`, `sm`, `offset`, `pin` and whatever the machine they start from; in
particular a second invocation, made after the first one, writes the same value again. -/
theorem C7_divider_pure (m mb : Machine) (pio piob : PIO)
    (sm smb offset offsetb pin pinb freq : Nat) :
    values_written m (blink_pin_forever m pio sm offset pin freq) =
      (divider m.clk_sys_hz freq).toList ∧
    (m.clk_sys_hz = mb.clk_sys_hz →
      values_written m (blink_pin_forever m pio sm offset pin freq) =
        values_written mb (blink_pin_forever mb piob smb offsetb pinb freq)) ∧
    (∀ m1, blink_pin_forever m pio sm offset pin freq = .ok m1 →
      ∃ m3, blink_pin_forever m1 pio sm offset pin freq = .ok m3 ∧
        values_written m1 (blink_pin_forever m1 pio sm offset pin freq) =
          values_written m (blink_pin_forever m pio sm offset pin freq) ∧
        (m3.hw pio).txf sm = (m1.hw pio).txf sm) := by
  refine ⟨values_written_eq _ _ _ _ _ _, ?_, ?_⟩
  · intro hclk
    rw [values_written_eq, values_written_eq, hclk]
  · intro m1 hrun
    cases hd : divider m.clk_sys_hz freq with
    | none =>
      rw [blink_pin_forever_eq, hd] at hrun
      cases hrun
    | some d =>
      obtain ⟨m1b, hrunb, -, htxf, -, -, hclk⟩ :=
        blink_pin_forever_ok m pio sm offset pin freq d hd
      rw [hrun] at hrunb
      cases hrunb
      obtain ⟨m3, hrun3, -, htxf3, -, -, -⟩ :=
        blink_pin_forever_ok m1 pio sm offset pin freq d (by rw [hclk, hd])
      refine ⟨m3, hrun3, ?_, by rw [htxf3, htxf]⟩
      rw [values_written_eq, values_written_eq, hclk]

/-- C7, for two invocations on different lanes, pins and PIO blocks. -/
theorem C7_divider_pure_witness :
    values_written (Machine.boot 150000000)
        (blink_pin_forever (Machine.boot 150000000) .pio0 0 0 25 3) =
      values_written (Machine.boot 150000000)
        (blink_pin_forever (Machine.boot 150000000) .pio1 2 7 13 3) :=
  (C7_divider_pure (Machine.boot 150000000) (Machine.boot 150000000) .pio0 .pio1
    0 2 0 7 25 13 3).2.1 rfl

/-- C6. When the SDK loads the program at `offset` and hands out lane `sm`, `main`
makes these calls, in this order and once each: `stdio_init_all`, the banner `printf`,
`pio_add_program(pio0, ..)` returning `offset`, `pio_claim_unused_sm(pio0, true)`
returning `sm`, and then `blink_pin_forever(pio0, sm, offset, 25, 3)`, whose calls
follow; it then is in its idle loop.  The only value it ever stores into an input
register is `clock_hz / 6 - 3` (modulo `2 ^ 32`), into lane `sm` of `pio0`; with a
150000000 Hz clock that value is 24999997. -/
theorem C6_main_configuration (sdk : Sdk) (m : Machine) (offset sm : Nat)
    (hadd : sdk.pio_add_program .pio0 = some offset)
    (hclaim : sdk.pio_claim_unused_sm .pio0 = some sm) :
    (∃ m5 m6,
      run sdk 5 (Config.init m) =
        { loc := .l37, m := m5, pio := .pio0, offset := offset, sm := sm } ∧
      blink_pin_forever m5 .pio0 sm offset BLINK_PIN 3 = .ok m6 ∧ BLINK_PIN = 25 ∧
      run sdk 6 (Config.init m) =
        { loc := .l40, m := m6, pio := .pio0, offset := offset, sm := sm }) ∧
    (run sdk 6 (Config.init m)).m.calls = m.calls ++ [.stdio_init_all,
      .printf "PIO Blink Example - RP2350\n", .pio_add_program .pio0 (some offset),
      .pio_claim_unused_sm .pio0 true (some sm),
      .blink_program_init .pio0 sm offset 25, .pio_sm_set_enabled .pio0 sm true,
      .printf "Blinking pin 25 at 3 Hz\n", .clock_get_hz m.clk_sys_hz,
      .txf_write .pio0 sm ((m.clk_sys_hz / 6 + U32 - 3) % U32)] ∧
    (∀ n, n < 6 → txf_writes (run sdk n (Config.init m)).m.calls = txf_writes m.calls) ∧
    (∀ n, 6 ≤ n → txf_writes (run sdk n (Config.init m)).m.calls =
      txf_writes m.calls ++ [(.pio0, sm, (m.clk_sys_hz / 6 + U32 - 3) % U32)]) ∧
    (m.clk_sys_hz = 150000000 → ∀ n, 6 ≤ n →
      txf_writes (run sdk n (Config.init m)).m.calls =
        txf_writes m.calls ++ [(.pio0, sm, 24999997)]) := by
  have h5 := run_to_blink sdk m offset sm hadd hclaim
  have hclk : (before_blink m offset sm).clk_sys_hz = m.clk_sys_hz := rfl
  obtain ⟨m6, hrun, hcalls, -, -, -, -⟩ :=
    blink_pin_forever_ok (before_blink m offset sm) .pio0 sm offset BLINK_PIN 3 _
      (divider_three _)
  have h6 : run sdk 6 (Config.init m) =
      { loc := .l40, m := m6, pio := .pio0, offset := offset, sm := sm } := by
    rw [show 6 = 5 + 1 from rfl, run_add, h5]
    simp [run, step, hrun]
  have hcalls6 : (run sdk 6 (Config.init m)).m.calls = m.calls ++ [.stdio_init_all,
      .printf "PIO Blink Example - RP2350\n", .pio_add_program .pio0 (some offset),
      .pio_claim_unused_sm .pio0 true (some sm),
      .blink_program_init .pio0 sm offset 25, .pio_sm_set_enabled .pio0 sm true,
      .printf "Blinking pin 25 at 3 Hz\n", .clock_get_hz m.clk_sys_hz,
      .txf_write .pio0 sm ((m.clk_sys_hz / 6 + U32 - 3) % U32)] := by
    have hline : "Blinking pin " ++ fmt_d BLINK_PIN ++ " at " ++ fmt_d 3 ++ " Hz\n" =
        "Blinking pin 25 at 3 Hz\n" := by decide
    rw [hline, hclk, before_blink_calls] at hcalls
    rw [h6]
    show m6.calls = _
    rw [hcalls]
    simp [BLINK_PIN]
  have hlate : ∀ n, 6 ≤ n → txf_writes (run sdk n (Config.init m)).m.calls =
      txf_writes m.calls ++ [(.pio0, sm, (m.clk_sys_hz / 6 + U32 - 3) % U32)] := by
    intro n hn
    obtain ⟨k, rfl⟩ : ∃ k, n = 6 + k := ⟨n - 6, by omega⟩
    rw [run_add]
    have hidle6 : (run sdk 6 (Config.init m)).loc.idle = true := by rw [h6]; rfl
    have hinv := run_invariant sdk
      (fun c => c.loc.idle = true ∧
        txf_writes c.m.calls = txf_writes (run sdk 6 (Config.init m)).m.calls)
      (by
        intro c c1 hc hs
        obtain ⟨c2, hs2, hi, -, -, hcs⟩ := idle_step sdk c hc.1
        rw [hs2] at hs
        cases hs
        refine ⟨hi, ?_⟩
        rcases hcs with hcs | hcs
        · rw [hcs, hc.2]
        · rw [hcs, txf_writes_append, hc.2]
          simp [txf_writes])
      k _ ⟨hidle6, rfl⟩
    rw [hinv.2, hcalls6, txf_writes_append]
    rfl
  refine ⟨⟨_, m6, h5, hrun, rfl, h6⟩, hcalls6, ?_, hlate, ?_⟩
  · intro n hn
    have hpre : ∀ k, k ≤ 5 → txf_writes (run sdk k (Config.init m)).m.calls =
        txf_writes m.calls := by
      intro k hk
      interval_cases k <;>
        simp [run, step, Config.init, hadd, hclaim, record, printf, txf_writes_append,
          txf_writes]
    exact hpre n (by omega)
  · intro hc n hn
    have hval : (150000000 / 6 + U32 - 3) % U32 = 24999997 := by decide
    rw [hlate n hn, hc, hval]

/-- C6, with the program at offset 7, lane 2 and the 150 MHz clock. -/
theorem C6_main_configuration_witness :
    txf_writes (run (Sdk.const 7 2) 6 (Config.init (Machine.boot 150000000))).m.calls =
      [(.pio0, 2, 24999997)] :=
  (C6_main_configuration (Sdk.const 7 2) (Machine.boot 150000000) 7 2 rfl rfl).2.2.2.2
    rfl 6 (by decide)

/-- C8. From either control point of the idle loop, every statement of `main` leads
back into the loop, and the run never stops: after any number of statements `main` is
still in the loop, has a next statement, is not at the `return` and has not exited; the
PIO registers (input registers and enable flags alike) and the diagnostic stream are
what they were on entry, and the calls made since are `tight_loop_contents` calls only,
so there is no further register write.  Moreover no run of `main` from its start ever
reaches the `return` statement. -/
theorem C8_idle_forever (sdk : Sdk) (c : Config) (hidle : c.loc.idle = true) (n : Nat) :
    (∃ c1, step sdk c = some c1 ∧ c1.loc.idle = true) ∧
    (run sdk n c).loc.idle = true ∧
    (∃ c1, step sdk (run sdk n c) = some c1 ∧ c1.loc.idle = true) ∧
    (run sdk n c).loc ≠ .l44 ∧ (run sdk n c).loc ≠ .exited ∧
    (run sdk n c).m.hw = c.m.hw ∧ (run sdk n c).m.stdout = c.m.stdout ∧
    (∃ k, (run sdk n c).m.calls = c.m.calls ++ List.replicate k .tight_loop_contents) ∧
    txf_writes (run sdk n c).m.calls = txf_writes c.m.calls ∧
    (∀ m0 k, (run sdk k (Config.init m0)).loc ≠ .l44 ∧
      (run sdk k (Config.init m0)).loc ≠ .exited) := by
  have hinv := run_invariant sdk
    (fun d => d.loc.idle = true ∧ d.m.hw = c.m.hw ∧ d.m.stdout = c.m.stdout ∧
      ∃ k, d.m.calls = c.m.calls ++ List.replicate k .tight_loop_contents)
    (by
      intro d d1 hd hs
      obtain ⟨d2, hs2, hi, hhw, hout, hcs⟩ := idle_step sdk d hd.1
      rw [hs2] at hs
      cases hs
      obtain ⟨-, hhw0, hout0, k, hk⟩ := hd
      refine ⟨hi, hhw.trans hhw0, hout.trans hout0, ?_⟩
      rcases hcs with hcs | hcs
      · exact ⟨k, hcs.trans hk⟩
      · refine ⟨k + 1, ?_⟩
        rw [hcs, hk, List.append_assoc, List.replicate_succ', ]
        )
    n c ⟨hidle, rfl, rfl, 0, by simp⟩
  obtain ⟨hi, hhw, hout, k, hk⟩ := hinv
  have hstart := run_invariant sdk (fun d => d.loc ≠ .l44 ∧ d.loc ≠ .exited)
    (by
      intro d d1 hd hs
      rcases d with ⟨loc, m, pio, offset, sm⟩
      exact step_not_return sdk _ d1 hd.1 hd.2 hs)
  obtain ⟨c1, hs1, hi1, -⟩ := idle_step sdk c hidle
  obtain ⟨c2, hs2, hi2, -⟩ := idle_step sdk _ hi
  refine ⟨⟨c1, hs1, hi1⟩, hi, ⟨c2, hs2, hi2⟩, ?_, ?_, hhw, hout, ⟨k, hk⟩, ?_, ?_⟩
  · intro h44
    rw [h44] at hi
    exact absurd hi (by decide)
  · intro hex
    rw [hex] at hi
    exact absurd hi (by decide)
  · rw [hk, txf_writes_append, txf_writes_idle, List.append_nil]
  · intro m0 k0
    exact hstart k0 (Config.init m0) ⟨by simp [Config.init], by simp [Config.init]⟩

/-- C8, for the run of `main` with the program at offset 7, lane 2 and the 150 MHz
clock: 100 statements after it has entered the loop it is still there, with the PIO
registers unchanged. -/
theorem C8_idle_forever_witness :
    (run (Sdk.const 7 2) 6 (Config.init (Machine.boot 150000000))).loc.idle = true ∧
    (run (Sdk.const 7 2) 100
      (run (Sdk.const 7 2) 6 (Config.init (Machine.boot 150000000)))).loc.idle = true ∧
    (run (Sdk.const 7 2) 100
      (run (Sdk.const 7 2) 6 (Config.init (Machine.boot 150000000)))).m.hw =
      (run (Sdk.const 7 2) 6 (Config.init (Machine.boot 150000000))).m.hw :=
  have h := C8_idle_forever (Sdk.const 7 2)
    (run (Sdk.const 7 2) 6 (Config.init (Machine.boot 150000000))) (by decide) 100
  ⟨by decide, h.2.1, h.2.2.2.2.2.1⟩

end PicoBlink
